import Mathlib

/-!
Verification development for the Oscar-2013 spectra/flow extraction script
(`compute_results.py`).

The script streams text files whose lines are either comment lines (starting
with `#`) or whitespace-separated particle records.  A two-state tracker
(flag `unfinished_event`) demarcates events; particles of an event are binned
into event-scoped rapidity and transverse-momentum histograms that are folded
into file-scoped histograms only when the event's end marker is seen.  A run
loop sums the per-file results and finally writes them out.

Shallow embedding conventions:
  * Python floats are modelled by exact real numbers `ℝ`; `math.log`,
    `math.sqrt` and `math.floor` become `Real.log`, `Real.sqrt`, `Int.floor`.
  * A tokenized line is modelled after the fields the script actually reads:
    a comment line carries its second and fourth tokens (`line[1]`, `line[3]`),
    a data line carries the adapter-extracted particle fields
    (`line[pdg_idx]`, `line[0:4]`, `line[mom_start:mom_end]`).
  * `sys.exit(n)` and uncaught Python exceptions (unreadable file,
    unparsable tokens) are both modelled by the error channel of `Except`:
    either aborts the process, so no later file and no output is processed.
-/

-- rapidity cut for dN/dpT (module constant `rap_cut`)
def rap_cut : ℝ := 1000

-- minimum transverse momentum cut for dN/dy (module constant `pT_min_cut`)
def pT_min_cut : ℝ := 0

-- maximum transverse momentum cut for dN/dy (module constant `pT_max_cut`)
def pT_max_cut : ℝ := 1000

-- rapidity resolution (module constant `rap_resolution`)
def rap_resolution : ℝ := 0.2

-- max rapidity, border of the bin (module constant `max_rapidity`)
def max_rapidity : ℝ := 5.1

-- pT resolution (module constant `pT_resolution`)
def pT_resolution : ℝ := 0.1

-- max pT, border of the bin (module constant `max_pT`)
def max_pT : ℝ := 4

-- the hadron dictionary: code ↦ (index, name)
def hadrons : List (String × ℕ × String) :=
  [("211", (0, "pion_plus")),
   ("-211", (1, "pion_minus")),
   ("111", (2, "pion_0")),
   ("321", (3, "kaon_plus")),
   ("-321", (4, "kaon_minus")),
   ("2212", (5, "proton")),
   ("-2212", (6, "anti-proton")),
   ("2112", (7, "neutron")),
   ("-2112", (8, "anti-neutron"))]

-- `pdg_ID in hadrons` / `hadrons[pdg_ID][0]` : dictionary lookup of the index
def hadronIndex (pdg : String) : Option ℕ :=
  (hadrons.find? (fun e => e.1 == pdg)).map (fun e => e.2.1)

def dy : ℝ := rap_resolution

def dpT : ℝ := pT_resolution

-- `ny = int(2*max_rapidity/dy) + 1` (int() truncates; the value is positive)
noncomputable def ny : ℕ := (Int.floor (2 * max_rapidity / dy)).toNat + 1

-- `npT = int(max_pT/pT_resolution)`
noncomputable def npT : ℕ := (Int.floor (max_pT / pT_resolution)).toNat

-- first entry of `y_arr = np.linspace(-ny*dy/2 + dy/2, ...)`
noncomputable def y_arr0 : ℝ := -(ny * dy) / 2 + dy / 2

-- first entry of `pT_arr = np.linspace(0 + dpT/2, ...)`
noncomputable def pT_arr0 : ℝ := 0 + dpT / 2

-- `y_start = y_arr[0] - dy/2` computed inside `extract_data_oscar`
noncomputable def y_start : ℝ := y_arr0 - dy / 2

-- `pT_start = pT_arr[0] - dpT/2` computed inside `extract_data_oscar`
noncomputable def pT_start : ℝ := pT_arr0 - dpT / 2

-- third indexes of the result arrays
def dN_idx : ℕ := 0
def v1_idx : ℕ := 1
def v2_idx : ℕ := 2

/-- A spectra array `np.zeros((nh, nbins, 3))`, modelled as a total function
(hadron index, bin index, observable index) ↦ value. -/
def Hist : Type := ℕ → ℕ → ℕ → ℝ

def Hist.zero : Hist := fun _ _ _ => 0

def Hist.add (a b : Hist) : Hist := fun i j k => a i j k + b i j k

-- one `arr[i, j, k] += v` update
def updAt (h : Hist) (i j k : ℕ) (v : ℝ) : Hist :=
  fun i' j' k' => if i' = i ∧ j' = j ∧ k' = k then h i' j' k' + v else h i' j' k'

-- the three `+=` lines applied to one histogram at (hadron, bin)
def bump (h : Hist) (i j : ℕ) (v1 v2 : ℝ) : Hist :=
  updAt (updAt (updAt h i j dN_idx 1) i j v1_idx v1) i j v2_idx v2

/-- The fields of a data line that the script reads: `line[pdg_idx]`,
`t,x,y,z = line[0:4]` and `p0,px,py,pz = line[mom_start:mom_end]`. -/
structure Particle where
  pdg : String
  t : ℝ
  x : ℝ
  y : ℝ
  z : ℝ
  p0 : ℝ
  px : ℝ
  py : ℝ
  pz : ℝ

/-- A tokenized input line: either a comment line (first character `#`),
carrying its second and fourth tokens, or a particle data line carrying the
adapter-extracted fields. -/
inductive Line where
  | comment (field1 field3 : String)
  | particle (p : Particle)

/-- The per-variant event markers (the momentum/pdg column offsets of the two
variants are already folded into `Line.particle`). -/
structure Fmt where
  event_name_identifier : String
  event_start_identifier : String
  event_end_identifier : String
deriving DecidableEq

def smashFmt : Fmt := ⟨"event", "out", "end"⟩

def bhacFmt : Fmt := ⟨"Event", "start", "end"⟩

/-- Process abort: `sys.exit(code)`, or an uncaught exception (I/O error on
`open`, `ValueError`/`IndexError` on malformed tokens). -/
inductive Abort where
  | exitCode (code : ℕ)
  | exn
deriving DecidableEq

/-- `args.type` dispatch: unknown type prints a message and exits with 1. -/
def selectFormat (t : String) : Except Abort Fmt :=
  if t = "SMASH" then Except.ok smashFmt
  else if t = "BHAC-QGP" then Except.ok bhacFmt
  else Except.error (Abort.exitCode 1)

/-- The loop-carried state of `extract_data_oscar`. -/
structure FileState where
  unfinished_event : Bool
  events_in_file : ℕ
  y_spectra_event : Hist
  pT_spectra_event : Hist
  y_spectra_file : Hist
  pT_spectra_file : Hist

def initState : FileState :=
  ⟨false, 0, Hist.zero, Hist.zero, Hist.zero, Hist.zero⟩

/-- The particle-record part of the loop body (source lines 162-192): registry
lookup, rapidity/pT validity filters, flow moments, and the two independent
bin-acceptance updates.  Returns the updated pair
(y_spectra_event, pT_spectra_event). -/
noncomputable def binParticle (y_spectra_event pT_spectra_event : Hist)
    (p : Particle) : Hist × Hist :=
  match hadronIndex p.pdg with
  | none => (y_spectra_event, pT_spectra_event)
  | some hadron_index =>
    if (p.p0 - p.pz) * (p.p0 + p.pz) ≤ 0 then
      (y_spectra_event, pT_spectra_event)
    else
      let rapidity := 0.5 * Real.log ((p.p0 + p.pz) / (p.p0 - p.pz))
      let pT2 := p.px ^ 2 + p.py ^ 2
      if pT2 = 0 then
        (y_spectra_event, pT_spectra_event)
      else
        let pT := Real.sqrt pT2
        let v1 := p.px / pT
        let v2 := (p.px ^ 2 - p.py ^ 2) / pT2
        let rapidity_index : ℤ := Int.floor ((rapidity - y_start) / dy)
        let yse :=
          if 0 ≤ rapidity_index ∧ rapidity_index < (ny : ℤ) ∧
              pT_min_cut ≤ pT ∧ pT < pT_max_cut then
            bump y_spectra_event hadron_index rapidity_index.toNat v1 v2
          else y_spectra_event
        let pT_index : ℤ := Int.floor ((pT - pT_start) / dpT)
        let pse :=
          if 0 ≤ pT_index ∧ pT_index < (npT : ℤ) ∧ |rapidity| < rap_cut then
            bump pT_spectra_event hadron_index pT_index.toNat v1 v2
          else pT_spectra_event
        (yse, pse)

/-- One iteration of the `for iline in ifile` loop.  Comment lines drive the
two-state event tracker; any non-comment line goes through `binParticle`
(the source never consults `unfinished_event` on data lines). -/
noncomputable def stepLine (fmt : Fmt) (s : FileState) (l : Line) :
    Except Abort FileState :=
  match l with
  | Line.comment field1 field3 =>
    if field1 = fmt.event_name_identifier then
      if field3 = fmt.event_start_identifier then
        Except.ok { s with unfinished_event := true }
      else if field3 = fmt.event_end_identifier then
        if s.unfinished_event then
          Except.ok { s with
            unfinished_event := false,
            events_in_file := s.events_in_file + 1,
            y_spectra_file := s.y_spectra_file.add s.y_spectra_event,
            y_spectra_event := Hist.zero,
            pT_spectra_file := s.pT_spectra_file.add s.pT_spectra_event,
            pT_spectra_event := Hist.zero }
        else
          Except.error (Abort.exitCode 1)
      else
        Except.error (Abort.exitCode 1)
    else
      Except.ok s
  | Line.particle p =>
    let h := binParticle s.y_spectra_event s.pT_spectra_event p
    Except.ok { s with y_spectra_event := h.1, pT_spectra_event := h.2 }

/-- The whole line loop of `extract_data_oscar`. -/
noncomputable def extractLines (fmt : Fmt) (s : FileState) :
    List Line → Except Abort FileState
  | [] => Except.ok s
  | l :: ls =>
    match stepLine fmt s l with
    | Except.error e => Except.error e
    | Except.ok s' => extractLines fmt s' ls

/-- An input file: either unreadable (`open` raises) or a stream of
tokenized lines. -/
inductive InputFile where
  | unreadable
  | lines (ls : List Line)

/-- `extract_data_oscar`: run the line loop from a fresh state and return
`(events_in_file, y_spectra_file, pT_spectra_file)`; the event-scoped
accumulators of a still-open trailing event are dropped. -/
noncomputable def extract_data_oscar (fmt : Fmt) (f : InputFile) :
    Except Abort (ℕ × Hist × Hist) :=
  match f with
  | InputFile.unreadable => Except.error Abort.exn
  | InputFile.lines ls =>
    match extractLines fmt initState ls with
    | Except.error e => Except.error e
    | Except.ok s =>
      Except.ok (s.events_in_file, s.y_spectra_file, s.pT_spectra_file)

/-- The `for infile in args.inputs` loop plus the final emptiness check.
Note: the source guards `if new_events == None`, but `extract_data_oscar`
has no return path producing `None` — its failures are `sys.exit(1)` or an
uncaught exception, which abort the whole process; hence an error from
`extract_data_oscar` propagates here.  A file with 0 events is skipped. -/
noncomputable def runLoop (fmt : Fmt) :
    List InputFile → ℕ → Hist → Hist → Except Abort (ℕ × Hist × Hist)
  | [], total_events, y_spectra, pT_spectra =>
    if total_events = 0 then Except.error (Abort.exitCode 2)
    else Except.ok (total_events, y_spectra, pT_spectra)
  | f :: fs, total_events, y_spectra, pT_spectra =>
    match extract_data_oscar fmt f with
    | Except.error e => Except.error e
    | Except.ok (new_events, new_y_spectra, new_pT_spectra) =>
      if new_events = 0 then
        runLoop fmt fs total_events y_spectra pT_spectra
      else
        runLoop fmt fs (total_events + new_events)
          (y_spectra.add new_y_spectra) (pT_spectra.add new_pT_spectra)

/-- The whole program after argument parsing: format selection then the file
loop; `Except.ok` means the pickle output is written, `Except.error` means
the process exited before writing anything. -/
noncomputable def mainRun (typeArg : String) (files : List InputFile) :
    Except Abort (ℕ × Hist × Hist) :=
  match selectFormat typeArg with
  | Except.error e => Except.error e
  | Except.ok fmt => runLoop fmt files 0 Hist.zero Hist.zero

-- Derived numeric facts about the axis constants (exact arithmetic).

theorem ny_eq : ny = 52 := by
  have h : (2 * max_rapidity / dy : ℝ) = 51 := by
    norm_num [max_rapidity, dy, rap_resolution]
  have h2 : Int.floor (2 * max_rapidity / dy) = 51 := by rw [h]; norm_num
  rw [ny, h2]
  rfl

theorem npT_eq : npT = 40 := by
  have h : (max_pT / pT_resolution : ℝ) = 40 := by
    norm_num [max_pT, pT_resolution]
  have h2 : Int.floor (max_pT / pT_resolution) = 40 := by rw [h]; norm_num
  rw [npT, h2]
  rfl

theorem y_start_eq : y_start = -(26 / 5) := by
  rw [y_start, y_arr0, ny_eq]
  norm_num [dy, rap_resolution]

theorem pT_start_eq : pT_start = 0 := by
  rw [pT_start, pT_arr0]
  norm_num

-- Structured streams: event blocks, used to state the commit/discard laws.

def startLine (fmt : Fmt) : Line :=
  Line.comment fmt.event_name_identifier fmt.event_start_identifier

def endLine (fmt : Fmt) : Line :=
  Line.comment fmt.event_name_identifier fmt.event_end_identifier

/-- One well-formed event block: start marker, particle lines, end marker. -/
def mkEvent (fmt : Fmt) (ps : List Particle) : List Line :=
  startLine fmt :: (ps.map Line.particle ++ [endLine fmt])

/-- A stream made of well-formed event blocks only. -/
def closedStream (fmt : Fmt) (blocks : List (List Particle)) : List Line :=
  (blocks.map (mkEvent fmt)).flatten

/-- Folding a list of particles through `binParticle`. -/
noncomputable def binFold (ys ps : Hist) : List Particle → Hist × Hist
  | [] => (ys, ps)
  | p :: rest => binFold (binParticle ys ps p).1 (binParticle ys ps p).2 rest

/-- The event-scoped accumulation of one event's particles, from zero. -/
noncomputable def eventAccum (ps : List Particle) : Hist × Hist :=
  binFold Hist.zero Hist.zero ps

/-- Element-wise sum of the per-event accumulations of a list of events. -/
noncomputable def fileTotals : List (List Particle) → Hist × Hist
  | [] => (Hist.zero, Hist.zero)
  | ps :: bs =>
    ((eventAccum ps).1.add (fileTotals bs).1,
     (eventAccum ps).2.add (fileTotals bs).2)

-- Histogram algebra.

theorem Hist.add_zero (h : Hist) : h.add Hist.zero = h := by
  funext i j k
  simp [Hist.add, Hist.zero]

theorem Hist.zero_add (h : Hist) : Hist.zero.add h = h := by
  funext i j k
  simp [Hist.add, Hist.zero]

theorem Hist.add_assoc (a b c : Hist) : (a.add b).add c = a.add (b.add c) := by
  funext i j k
  simp [Hist.add]
  ring

-- Basic laws of the line loop.

theorem extractLines_append (fmt : Fmt) (s : FileState) (as bs : List Line) :
    extractLines fmt s (as ++ bs) =
      match extractLines fmt s as with
      | Except.error e => Except.error e
      | Except.ok s' => extractLines fmt s' bs := by
  induction as generalizing s with
  | nil => simp [extractLines]
  | cons l ls ih =>
    simp only [List.cons_append, extractLines]
    cases stepLine fmt s l with
    | error e => rfl
    | ok s' => exact ih s'

theorem stepLine_particle (fmt : Fmt) (s : FileState) (p : Particle) :
    stepLine fmt s (Line.particle p) = Except.ok { s with
      y_spectra_event := (binParticle s.y_spectra_event s.pT_spectra_event p).1,
      pT_spectra_event := (binParticle s.y_spectra_event s.pT_spectra_event p).2 } :=
  rfl

theorem extractLines_particles (fmt : Fmt) (s : FileState) (ps : List Particle) :
    extractLines fmt s (ps.map Line.particle) = Except.ok { s with
      y_spectra_event := (binFold s.y_spectra_event s.pT_spectra_event ps).1,
      pT_spectra_event := (binFold s.y_spectra_event s.pT_spectra_event ps).2 } := by
  induction ps generalizing s with
  | nil => rfl
  | cons p rest ih =>
    simp only [List.map_cons, extractLines, stepLine_particle]
    rw [ih]
    rfl

theorem stepLine_start (fmt : Fmt) (s : FileState) :
    stepLine fmt s (startLine fmt) = Except.ok { s with unfinished_event := true } := by
  simp [stepLine, startLine]

theorem stepLine_end_inside (fmt : Fmt)
    (hne : fmt.event_end_identifier ≠ fmt.event_start_identifier)
    (s : FileState) (h : s.unfinished_event = true) :
    stepLine fmt s (endLine fmt) = Except.ok { s with
      unfinished_event := false,
      events_in_file := s.events_in_file + 1,
      y_spectra_file := s.y_spectra_file.add s.y_spectra_event,
      y_spectra_event := Hist.zero,
      pT_spectra_file := s.pT_spectra_file.add s.pT_spectra_event,
      pT_spectra_event := Hist.zero } := by
  simp [stepLine, endLine, hne, h]

theorem stepLine_end_outside (fmt : Fmt)
    (hne : fmt.event_end_identifier ≠ fmt.event_start_identifier)
    (s : FileState) (h : s.unfinished_event = false) :
    stepLine fmt s (endLine fmt) = Except.error (Abort.exitCode 1) := by
  simp [stepLine, endLine, hne, h]

theorem extractLines_event (fmt : Fmt)
    (hne : fmt.event_end_identifier ≠ fmt.event_start_identifier)
    (s : FileState) (hy : s.y_spectra_event = Hist.zero)
    (hp : s.pT_spectra_event = Hist.zero) (ps : List Particle) (rest : List Line) :
    extractLines fmt s (mkEvent fmt ps ++ rest) = extractLines fmt { s with
      unfinished_event := false,
      events_in_file := s.events_in_file + 1,
      y_spectra_event := Hist.zero,
      pT_spectra_event := Hist.zero,
      y_spectra_file := s.y_spectra_file.add (eventAccum ps).1,
      pT_spectra_file := s.pT_spectra_file.add (eventAccum ps).2 } rest := by
  obtain ⟨u, n, ye, pe, yf, pf⟩ := s
  simp only at hy hp
  subst hy
  subst hp
  have hl : mkEvent fmt ps ++ rest =
      startLine fmt :: (ps.map Line.particle ++ (endLine fmt :: rest)) := by
    simp [mkEvent]
  rw [hl]
  simp only [extractLines, stepLine_start]
  rw [extractLines_append, extractLines_particles]
  simp only [extractLines]
  rw [stepLine_end_inside fmt hne _ rfl]
  simp only [eventAccum]

theorem extractLines_closedStream (fmt : Fmt)
    (hne : fmt.event_end_identifier ≠ fmt.event_start_identifier)
    (blocks : List (List Particle)) :
    ∀ s : FileState, s.unfinished_event = false →
      s.y_spectra_event = Hist.zero → s.pT_spectra_event = Hist.zero →
      extractLines fmt s (closedStream fmt blocks) = Except.ok { s with
        events_in_file := s.events_in_file + blocks.length,
        y_spectra_file := s.y_spectra_file.add (fileTotals blocks).1,
        pT_spectra_file := s.pT_spectra_file.add (fileTotals blocks).2 } := by
  induction blocks with
  | nil =>
    intro s hu hy hp
    obtain ⟨u, n, ye, pe, yf, pf⟩ := s
    simp only at hu hy hp
    subst hu
    subst hy
    subst hp
    simp [closedStream, extractLines, fileTotals, Hist.add_zero]
  | cons b bs ih =>
    intro s hu hy hp
    obtain ⟨u, n, ye, pe, yf, pf⟩ := s
    simp only at hu hy hp
    subst hu
    subst hy
    subst hp
    have hjoin : closedStream fmt (b :: bs) = mkEvent fmt b ++ closedStream fmt bs := by
      simp [closedStream]
    rw [hjoin]
    rw [extractLines_event fmt hne _ rfl rfl]
    rw [ih _ rfl rfl rfl]
    simp only [fileTotals, List.length_cons, Hist.add_assoc]
    congr 1
    simp only [FileState.mk.injEq, and_true, true_and]
    omega

theorem extract_closedStream (fmt : Fmt)
    (hne : fmt.event_end_identifier ≠ fmt.event_start_identifier)
    (blocks : List (List Particle)) :
    extract_data_oscar fmt (InputFile.lines (closedStream fmt blocks)) =
      Except.ok (blocks.length, (fileTotals blocks).1, (fileTotals blocks).2) := by
  simp only [extract_data_oscar]
  rw [extractLines_closedStream fmt hne blocks initState rfl rfl rfl]
  simp [initState, Hist.zero_add]

/-- Claim C1: a particle's contribution reaches the file-scoped histograms iff
the event containing it reached a clean end-of-event marker.  For a stream of
well-formed event blocks the extraction returns exactly the block count and
the sum of the per-event accumulations; appending an unterminated trailing
event (start marker plus particles but no end marker) changes nothing: its
contributions are discarded and it is not counted. -/
theorem c1_commit_iff_clean_end (fmt : Fmt)
    (hne : fmt.event_end_identifier ≠ fmt.event_start_identifier)
    (blocks : List (List Particle)) (tail : List Particle) :
    extract_data_oscar fmt (InputFile.lines (closedStream fmt blocks)) =
      Except.ok (blocks.length, (fileTotals blocks).1, (fileTotals blocks).2) ∧
    extract_data_oscar fmt (InputFile.lines
        (closedStream fmt blocks ++ (startLine fmt :: tail.map Line.particle))) =
      Except.ok (blocks.length, (fileTotals blocks).1, (fileTotals blocks).2) := by
  refine ⟨extract_closedStream fmt hne blocks, ?_⟩
  simp only [extract_data_oscar]
  rw [extractLines_append]
  rw [extractLines_closedStream fmt hne blocks initState rfl rfl rfl]
  simp only [extractLines, stepLine_start]
  rw [extractLines_particles]
  simp [initState, Hist.zero_add]

def wParticle : Particle := ⟨"211", 0, 0, 0, 0, 2, 1, 0, 0⟩

def lightParticle : Particle := ⟨"211", 0, 0, 0, 0, 1, 1, 0, 1⟩

/-- Witness for C1 at a concrete one-block stream with a concrete
unterminated trailing event. -/
theorem c1_commit_iff_clean_end_witness :
    smashFmt.event_end_identifier ≠ smashFmt.event_start_identifier ∧
    (extract_data_oscar smashFmt (InputFile.lines (closedStream smashFmt [[wParticle]])) =
      Except.ok (1, (fileTotals [[wParticle]]).1, (fileTotals [[wParticle]]).2) ∧
    extract_data_oscar smashFmt (InputFile.lines
        (closedStream smashFmt [[wParticle]] ++
          (startLine smashFmt :: [wParticle].map Line.particle))) =
      Except.ok (1, (fileTotals [[wParticle]]).1, (fileTotals [[wParticle]]).2)) := by
  refine ⟨by decide, ?_⟩
  have h := c1_commit_iff_clean_end smashFmt (by decide) [[wParticle]] [wParticle]
  simpa using h

theorem runLoop_end_first (fmt : Fmt)
    (hne : fmt.event_end_identifier ≠ fmt.event_start_identifier)
    (rest : List Line) (fs : List InputFile) (n : ℕ) (yh ph : Hist) :
    runLoop fmt (InputFile.lines (endLine fmt :: rest) :: fs) n yh ph =
      Except.error (Abort.exitCode 1) := by
  simp only [runLoop, extract_data_oscar, extractLines]
  rw [stepLine_end_outside fmt hne initState rfl]

/-- Claim C4: an end-of-event marker seen while the tracker is
`OUTSIDE_EVENT` (`unfinished_event = false`) is a fatal structural parse
error: the step exits with status 1, and a run whose file starts with such a
marker halts immediately with exit status 1, so no output is written. -/
theorem c4_end_without_start_fatal (fmt : Fmt)
    (hne : fmt.event_end_identifier ≠ fmt.event_start_identifier) :
    (∀ s : FileState, s.unfinished_event = false →
        stepLine fmt s (endLine fmt) = Except.error (Abort.exitCode 1)) ∧
    (∀ (rest : List Line) (fs : List InputFile) (n : ℕ) (yh ph : Hist),
        runLoop fmt (InputFile.lines (endLine fmt :: rest) :: fs) n yh ph =
          Except.error (Abort.exitCode 1)) := by
  constructor
  · intro s h
    exact stepLine_end_outside fmt hne s h
  · intro rest fs n yh ph
    exact runLoop_end_first fmt hne rest fs n yh ph

/-- Witness for C4 at the SMASH format, the initial state, and a run whose
single file consists of one end marker. -/
theorem c4_end_without_start_fatal_witness :
    smashFmt.event_end_identifier ≠ smashFmt.event_start_identifier ∧
    stepLine smashFmt initState (endLine smashFmt) = Except.error (Abort.exitCode 1) ∧
    runLoop smashFmt [InputFile.lines [endLine smashFmt]] 0 Hist.zero Hist.zero =
      Except.error (Abort.exitCode 1) := by
  have h := c4_end_without_start_fatal smashFmt (by decide)
  exact ⟨by decide, h.1 initState rfl, h.2 [] [] 0 Hist.zero Hist.zero⟩

-- Named forms of the per-particle quantities of source lines 172-187.

noncomputable def rapidityOf (p : Particle) : ℝ :=
  0.5 * Real.log ((p.p0 + p.pz) / (p.p0 - p.pz))

noncomputable def pTOf (p : Particle) : ℝ :=
  Real.sqrt (p.px ^ 2 + p.py ^ 2)

noncomputable def v1Of (p : Particle) : ℝ := p.px / pTOf p

noncomputable def v2Of (p : Particle) : ℝ :=
  (p.px ^ 2 - p.py ^ 2) / (p.px ^ 2 + p.py ^ 2)

noncomputable def yIndexOf (p : Particle) : ℤ :=
  Int.floor ((rapidityOf p - y_start) / dy)

noncomputable def pTIndexOf (p : Particle) : ℤ :=
  Int.floor ((pTOf p - pT_start) / dpT)

/-- For a registered particle passing both validity filters, `binParticle`
is exactly the pair of independent conditional bin updates. -/
theorem binParticle_valid_char (ys ps : Hist) (p : Particle) (i : ℕ)
    (hreg : hadronIndex p.pdg = some i)
    (hrap : 0 < (p.p0 - p.pz) * (p.p0 + p.pz))
    (hpT : p.px ^ 2 + p.py ^ 2 ≠ 0) :
    binParticle ys ps p =
      ((if 0 ≤ yIndexOf p ∧ yIndexOf p < (ny : ℤ) ∧
            pT_min_cut ≤ pTOf p ∧ pTOf p < pT_max_cut then
          bump ys i (yIndexOf p).toNat (v1Of p) (v2Of p)
        else ys),
       (if 0 ≤ pTIndexOf p ∧ pTIndexOf p < (npT : ℤ) ∧ |rapidityOf p| < rap_cut then
          bump ps i (pTIndexOf p).toNat (v1Of p) (v2Of p)
        else ps)) := by
  simp only [binParticle, hreg]
  rw [if_neg (not_le.mpr hrap), if_neg hpT]
  rfl

/-- Claim C2: for a particle with a registered hadron code and valid rapidity
and pT, the event-scoped rapidity histogram is updated (count +1, v1 added,
v2 added at the particle's rapidity bin) exactly when
`floor((rapidity - y_start)/dy)` lies in `[0, ny)` and `pT` lies in the
closed-open window `[pT_min_cut, pT_max_cut)`; the event-scoped pT histogram
is updated exactly when `floor((pT - pT_start)/dpT)` lies in `[0, npT)` and
`|rapidity| < rap_cut`; and the two acceptance decisions are independent
(each component of the result is governed by its own condition alone). -/
theorem c2_bin_acceptance (ys ps : Hist) (p : Particle) (i : ℕ)
    (hreg : hadronIndex p.pdg = some i)
    (hrap : 0 < (p.p0 - p.pz) * (p.p0 + p.pz))
    (hpT : p.px ^ 2 + p.py ^ 2 ≠ 0) :
    binParticle ys ps p =
      ((if 0 ≤ yIndexOf p ∧ yIndexOf p < (ny : ℤ) ∧
            pT_min_cut ≤ pTOf p ∧ pTOf p < pT_max_cut then
          bump ys i (yIndexOf p).toNat (v1Of p) (v2Of p)
        else ys),
       (if 0 ≤ pTIndexOf p ∧ pTIndexOf p < (npT : ℤ) ∧ |rapidityOf p| < rap_cut then
          bump ps i (pTIndexOf p).toNat (v1Of p) (v2Of p)
        else ps)) :=
  binParticle_valid_char ys ps p i hreg hrap hpT

/-- Witness for C2: a concrete pion with momentum (2, 1, 0, 0). -/
theorem c2_bin_acceptance_witness :
    hadronIndex wParticle.pdg = some 0 ∧
    0 < (wParticle.p0 - wParticle.pz) * (wParticle.p0 + wParticle.pz) ∧
    wParticle.px ^ 2 + wParticle.py ^ 2 ≠ 0 ∧
    binParticle Hist.zero Hist.zero wParticle =
      ((if 0 ≤ yIndexOf wParticle ∧ yIndexOf wParticle < (ny : ℤ) ∧
            pT_min_cut ≤ pTOf wParticle ∧ pTOf wParticle < pT_max_cut then
          bump Hist.zero 0 (yIndexOf wParticle).toNat (v1Of wParticle) (v2Of wParticle)
        else Hist.zero),
       (if 0 ≤ pTIndexOf wParticle ∧ pTIndexOf wParticle < (npT : ℤ) ∧
            |rapidityOf wParticle| < rap_cut then
          bump Hist.zero 0 (pTIndexOf wParticle).toNat (v1Of wParticle) (v2Of wParticle)
        else Hist.zero)) := by
  refine ⟨rfl, ?_, ?_, ?_⟩
  · norm_num [wParticle]
  · norm_num [wParticle]
  · exact c2_bin_acceptance Hist.zero Hist.zero wParticle 0 rfl
      (by norm_num [wParticle]) (by norm_num [wParticle])

/-- Claim C3: a particle whose `(E-pz)*(E+pz)` is not strictly positive, or
whose `px^2+py^2` is zero, is skipped: it contributes to neither event-scoped
histogram, and the skipping is silent — processing its line succeeds and
leaves the whole state unchanged. -/
theorem binParticle_skip (p : Particle)
    (h : hadronIndex p.pdg = none ∨
      (p.p0 - p.pz) * (p.p0 + p.pz) ≤ 0 ∨ p.px ^ 2 + p.py ^ 2 = 0) :
    ∀ ys ps : Hist, binParticle ys ps p = (ys, ps) := by
  intro ys ps
  cases hreg : hadronIndex p.pdg with
  | none => simp [binParticle, hreg]
  | some i =>
    rcases h with h0 | h1 | h2
    · rw [hreg] at h0
      exact Option.noConfusion h0
    · simp [binParticle, hreg, if_pos h1]
    · by_cases h1 : (p.p0 - p.pz) * (p.p0 + p.pz) ≤ 0
      · simp [binParticle, hreg, if_pos h1]
      · simp only [binParticle, hreg, if_neg h1]
        rw [if_pos h2]

theorem c3_invalid_particle_skipped (p : Particle)
    (h : (p.p0 - p.pz) * (p.p0 + p.pz) ≤ 0 ∨ p.px ^ 2 + p.py ^ 2 = 0) :
    (∀ ys ps : Hist, binParticle ys ps p = (ys, ps)) ∧
    (∀ (fmt : Fmt) (s : FileState), stepLine fmt s (Line.particle p) = Except.ok s) := by
  have hbin := binParticle_skip p (Or.inr h)
  refine ⟨hbin, ?_⟩
  intro fmt s
  rw [stepLine_particle, hbin]

/-- Witness for C3: a concrete massless particle with `E = pz` exactly. -/
theorem c3_invalid_particle_skipped_witness :
    ((lightParticle.p0 - lightParticle.pz) * (lightParticle.p0 + lightParticle.pz) ≤ 0 ∨
      lightParticle.px ^ 2 + lightParticle.py ^ 2 = 0) ∧
    binParticle Hist.zero Hist.zero lightParticle = (Hist.zero, Hist.zero) ∧
    stepLine smashFmt initState (Line.particle lightParticle) = Except.ok initState := by
  have h := c3_invalid_particle_skipped lightParticle
    (Or.inl (by norm_num [lightParticle]))
  exact ⟨Or.inl (by norm_num [lightParticle]), h.1 Hist.zero Hist.zero,
    h.2 smashFmt initState⟩

/-- Committing one event block from an arbitrary state: the current
event-scoped accumulators (whatever they hold) plus the block's particles are
folded into the file-scoped histograms. -/
theorem extractLines_event_any (fmt : Fmt)
    (hne : fmt.event_end_identifier ≠ fmt.event_start_identifier)
    (s : FileState) (ps : List Particle) (rest : List Line) :
    extractLines fmt s (mkEvent fmt ps ++ rest) = extractLines fmt { s with
      unfinished_event := false,
      events_in_file := s.events_in_file + 1,
      y_spectra_event := Hist.zero,
      pT_spectra_event := Hist.zero,
      y_spectra_file := s.y_spectra_file.add
        (binFold s.y_spectra_event s.pT_spectra_event ps).1,
      pT_spectra_file := s.pT_spectra_file.add
        (binFold s.y_spectra_event s.pT_spectra_event ps).2 } rest := by
  obtain ⟨u, n, ye, pe, yf, pf⟩ := s
  have hl : mkEvent fmt ps ++ rest =
      startLine fmt :: (ps.map Line.particle ++ (endLine fmt :: rest)) := by
    simp [mkEvent]
  rw [hl]
  simp only [extractLines, stepLine_start]
  rw [extractLines_append, extractLines_particles]
  simp only [extractLines]
  rw [stepLine_end_inside fmt hne _ rfl]

-- A concrete family of accepted particles: a pion with momentum (2, a, 0, 0).

def pxParticle (a : ℝ) : Particle := ⟨"211", 0, 0, 0, 0, 2, a, 0, 0⟩

theorem rapidityOf_pxParticle (a : ℝ) : rapidityOf (pxParticle a) = 0 := by
  have h : ((pxParticle a).p0 + (pxParticle a).pz) /
      ((pxParticle a).p0 - (pxParticle a).pz) = 1 := by
    norm_num [pxParticle]
  rw [rapidityOf, h, Real.log_one, mul_zero]

theorem pTOf_pxParticle (a : ℝ) (ha : a ^ 2 = 1) : pTOf (pxParticle a) = 1 := by
  simp [pTOf, pxParticle, ha]

theorem v1Of_pxParticle (a : ℝ) (ha : a ^ 2 = 1) : v1Of (pxParticle a) = a := by
  rw [v1Of, pTOf_pxParticle a ha]
  simp [pxParticle]

theorem v2Of_pxParticle (a : ℝ) (ha : a ^ 2 = 1) : v2Of (pxParticle a) = 1 := by
  simp [v2Of, pxParticle, ha]

theorem yIndexOf_pxParticle (a : ℝ) : yIndexOf (pxParticle a) = 26 := by
  rw [yIndexOf, rapidityOf_pxParticle, y_start_eq]
  norm_num [dy, rap_resolution]

theorem pTIndexOf_pxParticle (a : ℝ) (ha : a ^ 2 = 1) :
    pTIndexOf (pxParticle a) = 10 := by
  rw [pTIndexOf, pTOf_pxParticle a ha, pT_start_eq]
  norm_num [dpT, pT_resolution]

theorem binParticle_pxParticle (ys ps : Hist) (a : ℝ) (ha : a ^ 2 = 1) :
    binParticle ys ps (pxParticle a) = (bump ys 0 26 a 1, bump ps 0 10 a 1) := by
  rw [binParticle_valid_char ys ps (pxParticle a) 0 rfl
    (by norm_num [pxParticle]) (by norm_num [pxParticle, ha])]
  rw [yIndexOf_pxParticle, pTIndexOf_pxParticle a ha, v1Of_pxParticle a ha,
    v2Of_pxParticle a ha, rapidityOf_pxParticle, pTOf_pxParticle a ha]
  rw [if_pos ⟨by norm_num, by norm_num [ny_eq], by norm_num [pT_min_cut],
    by norm_num [pT_max_cut]⟩]
  rw [if_pos ⟨by norm_num, by norm_num [npT_eq], by norm_num [rap_cut]⟩]
  rfl

/-- Counterexample to C7: a particle line appearing while the tracker is
`OUTSIDE_EVENT` (before any start marker) is NOT fatal — the file parses
fine, and because the event accumulators are only zeroed at commit time, the
stray particle is even committed by the next event's end marker: the file
ends with 1 event and the stray particle counted in the file-scoped rapidity
histogram. -/
theorem c7_counterexample :
    (extract_data_oscar smashFmt (InputFile.lines
        [Line.particle (pxParticle 1), startLine smashFmt, endLine smashFmt])).map
      (fun r => (r.1, r.2.1 0 26 dN_idx)) = Except.ok (1, 1) := by
  simp only [extract_data_oscar, extractLines, stepLine_particle, stepLine_start]
  rw [stepLine_end_inside smashFmt (by decide) _ rfl]
  simp [Except.map, binParticle_pxParticle Hist.zero Hist.zero 1 (by norm_num),
    initState, Hist.add, Hist.zero, bump, updAt, dN_idx, v1_idx, v2_idx]

/-- Claim C7 amended: a non-comment line seen while the tracker is
`OUTSIDE_EVENT` is not fatal; the source processes every non-comment line as
a particle record through the binning engine, regardless of the tracker
state, and never raises an error on it. -/
theorem c7_amended_particle_lines_not_fatal (fmt : Fmt) (s : FileState)
    (p : Particle) :
    stepLine fmt s (Line.particle p) = Except.ok { s with
      y_spectra_event := (binParticle s.y_spectra_event s.pT_spectra_event p).1,
      pT_spectra_event := (binParticle s.y_spectra_event s.pT_spectra_event p).2 } :=
  rfl

/-- Counterexample to C8: the v1-sum entries of the file-scoped histograms
are not monotone.  Committing an event containing a pion with px = -1
(v1 = -1) decreases the file-scoped v1 entry at its bin from 0 to -1. -/
theorem c8_counterexample :
    (extractLines smashFmt initState
        [startLine smashFmt, Line.particle (pxParticle (-1))]).map
      (fun s => s.y_spectra_file 0 26 v1_idx) = Except.ok 0 ∧
    (extractLines smashFmt initState
        [startLine smashFmt, Line.particle (pxParticle (-1)), endLine smashFmt]).map
      (fun s => s.y_spectra_file 0 26 v1_idx) = Except.ok (-1) ∧
    (-1 : ℝ) < 0 := by
  refine ⟨?_, ?_, by norm_num⟩
  · simp only [extractLines, stepLine_start, stepLine_particle]
    simp [Except.map, initState, Hist.zero]
  · simp only [extractLines, stepLine_start, stepLine_particle]
    rw [stepLine_end_inside smashFmt (by decide) _ rfl]
    simp only [extractLines]
    simp [Except.map, binParticle_pxParticle Hist.zero Hist.zero (-1) (by norm_num),
      initState, Hist.add, Hist.zero, bump, updAt, dN_idx, v1_idx, v2_idx]

-- Count monotonicity machinery.

theorem bump_count_entry (h : Hist) (a b i j : ℕ) (v1 v2 : ℝ) :
    bump h a b v1 v2 i j dN_idx =
      if i = a ∧ j = b then h i j dN_idx + 1 else h i j dN_idx := by
  simp [bump, updAt, dN_idx, v1_idx, v2_idx]

theorem bump_count_le (h : Hist) (a b i j : ℕ) (v1 v2 : ℝ) :
    h i j dN_idx ≤ bump h a b v1 v2 i j dN_idx := by
  rw [bump_count_entry]
  split
  · linarith
  · exact le_refl _

theorem binParticle_count_le (ys ps : Hist) (p : Particle) (i j : ℕ) :
    ys i j dN_idx ≤ (binParticle ys ps p).1 i j dN_idx ∧
    ps i j dN_idx ≤ (binParticle ys ps p).2 i j dN_idx := by
  cases hreg : hadronIndex p.pdg with
  | none =>
    rw [binParticle_skip p (Or.inl hreg)]
    exact ⟨le_refl _, le_refl _⟩
  | some k =>
    by_cases h1 : (p.p0 - p.pz) * (p.p0 + p.pz) ≤ 0
    · rw [binParticle_skip p (Or.inr (Or.inl h1))]
      exact ⟨le_refl _, le_refl _⟩
    · by_cases h2 : p.px ^ 2 + p.py ^ 2 = 0
      · rw [binParticle_skip p (Or.inr (Or.inr h2))]
        exact ⟨le_refl _, le_refl _⟩
      · rw [binParticle_valid_char ys ps p k hreg (not_le.mp h1) h2]
        constructor
        · show ys i j dN_idx ≤ (if _ then _ else ys) i j dN_idx
          split
          · exact bump_count_le ys k (yIndexOf p).toNat i j (v1Of p) (v2Of p)
          · exact le_refl _
        · show ps i j dN_idx ≤ (if _ then _ else ps) i j dN_idx
          split
          · exact bump_count_le ps k (pTIndexOf p).toNat i j (v1Of p) (v2Of p)
          · exact le_refl _

/-- Non-negativity of the count entries of the event-scoped accumulators. -/
def EvCountsNonneg (s : FileState) : Prop :=
  ∀ i j, 0 ≤ s.y_spectra_event i j dN_idx ∧ 0 ≤ s.pT_spectra_event i j dN_idx

theorem stepLine_counts (fmt : Fmt) (s : FileState) (l : Line) (s' : FileState)
    (h : stepLine fmt s l = Except.ok s') (hn : EvCountsNonneg s) :
    EvCountsNonneg s' ∧
    ∀ i j, s.y_spectra_file i j dN_idx ≤ s'.y_spectra_file i j dN_idx ∧
      s.pT_spectra_file i j dN_idx ≤ s'.pT_spectra_file i j dN_idx := by
  cases l with
  | particle p =>
    rw [stepLine_particle] at h
    injection h with h
    subst h
    refine ⟨fun i j => ?_, fun i j => ⟨le_refl _, le_refl _⟩⟩
    have hb := binParticle_count_le s.y_spectra_event s.pT_spectra_event p i j
    exact ⟨le_trans (hn i j).1 hb.1, le_trans (hn i j).2 hb.2⟩
  | comment f1 f3 =>
    simp only [stepLine] at h
    by_cases hc1 : f1 = fmt.event_name_identifier
    · rw [if_pos hc1] at h
      by_cases hc2 : f3 = fmt.event_start_identifier
      · rw [if_pos hc2] at h
        injection h with h
        subst h
        exact ⟨hn, fun i j => ⟨le_refl _, le_refl _⟩⟩
      · rw [if_neg hc2] at h
        by_cases hc3 : f3 = fmt.event_end_identifier
        · rw [if_pos hc3] at h
          cases hu : s.unfinished_event with
          | false =>
            rw [hu] at h
            exact Except.noConfusion h
          | true =>
            rw [hu] at h
            simp only [if_pos] at h
            injection h with h
            subst h
            refine ⟨fun i j => ⟨le_refl _, le_refl _⟩, fun i j => ?_⟩
            constructor
            · exact le_add_of_nonneg_right (hn i j).1
            · exact le_add_of_nonneg_right (hn i j).2
        · rw [if_neg hc3] at h
          exact Except.noConfusion h
    · rw [if_neg hc1] at h
      injection h with h
      subst h
      exact ⟨hn, fun i j => ⟨le_refl _, le_refl _⟩⟩

theorem extractLines_counts (fmt : Fmt) (ls : List Line) :
    ∀ s s' : FileState, extractLines fmt s ls = Except.ok s' → EvCountsNonneg s →
    EvCountsNonneg s' ∧
    ∀ i j, s.y_spectra_file i j dN_idx ≤ s'.y_spectra_file i j dN_idx ∧
      s.pT_spectra_file i j dN_idx ≤ s'.pT_spectra_file i j dN_idx := by
  induction ls with
  | nil =>
    intro s s' h hn
    simp only [extractLines] at h
    injection h with h
    subst h
    exact ⟨hn, fun i j => ⟨le_refl _, le_refl _⟩⟩
  | cons l ls ih =>
    intro s s' h hn
    cases hstep : stepLine fmt s l with
    | error e =>
      simp only [extractLines, hstep] at h
      exact Except.noConfusion h
    | ok s1 =>
      simp only [extractLines, hstep] at h
      have h1 := stepLine_counts fmt s l s1 hstep hn
      have h2 := ih s1 s' h h1.1
      exact ⟨h2.1, fun i j =>
        ⟨le_trans (h1.2 i j).1 (h2.2 i j).1, le_trans (h1.2 i j).2 (h2.2 i j).2⟩⟩

theorem extract_counts (fmt : Fmt) (f : InputFile) (n : ℕ) (yh ph : Hist)
    (h : extract_data_oscar fmt f = Except.ok (n, yh, ph)) :
    ∀ i j, 0 ≤ yh i j dN_idx ∧ 0 ≤ ph i j dN_idx := by
  cases f with
  | unreadable => exact Except.noConfusion h
  | lines ls =>
    simp only [extract_data_oscar] at h
    cases hex : extractLines fmt initState ls with
    | error e =>
      rw [hex] at h
      exact Except.noConfusion h
    | ok s =>
      rw [hex] at h
      injection h with h
      simp only [Prod.mk.injEq] at h
      obtain ⟨h1, h2, h3⟩ := h
      subst h2
      subst h3
      have hc := extractLines_counts fmt ls initState s hex
        (fun i j => ⟨le_refl _, le_refl _⟩)
      intro i j
      exact hc.2 i j

theorem runLoop_counts (fmt : Fmt) (fs : List InputFile) :
    ∀ (n : ℕ) (yh ph : Hist) (n' : ℕ) (yh' ph' : Hist),
      runLoop fmt fs n yh ph = Except.ok (n', yh', ph') →
      ∀ i j, yh i j dN_idx ≤ yh' i j dN_idx ∧ ph i j dN_idx ≤ ph' i j dN_idx := by
  induction fs with
  | nil =>
    intro n yh ph n' yh' ph' h i j
    simp only [runLoop] at h
    split at h
    · exact Except.noConfusion h
    · injection h with h
      simp only [Prod.mk.injEq] at h
      obtain ⟨h1, h2, h3⟩ := h
      subst h2
      subst h3
      exact ⟨le_refl _, le_refl _⟩
  | cons f fs ih =>
    intro n yh ph n' yh' ph' h i j
    cases hex : extract_data_oscar fmt f with
    | error e =>
      simp only [runLoop, hex] at h
      exact Except.noConfusion h
    | ok r =>
      obtain ⟨ne, nyh, nph⟩ := r
      simp only [runLoop, hex] at h
      by_cases hne : ne = 0
      · rw [if_pos hne] at h
        exact ih n yh ph n' yh' ph' h i j
      · rw [if_neg hne] at h
        have hc := extract_counts fmt f ne nyh nph hex
        have hrest := ih _ _ _ _ _ _ h i j
        constructor
        · exact le_trans (le_add_of_nonneg_right (hc i j).1) hrest.1
        · exact le_trans (le_add_of_nonneg_right (hc i j).2) hrest.2

/-- Claim C8 amended: the COUNT entries of the file-scoped and run-scoped
histograms are accumulate-only and never decrease (across every processing
step, each commit, and each file merge), and every committed file result has
non-negative count entries.  The v1-sum and v2-sum entries may decrease,
because an event's summed flow contribution can be negative (see the
counterexample); for them the histograms are accumulate-only merely in the
sense that commits and merges add the event/file contribution. -/
theorem c8_amended_counts_monotone :
    (∀ (fmt : Fmt) (s : FileState) (l : Line) (s' : FileState),
      stepLine fmt s l = Except.ok s' → EvCountsNonneg s →
      EvCountsNonneg s' ∧
      ∀ i j, s.y_spectra_file i j dN_idx ≤ s'.y_spectra_file i j dN_idx ∧
        s.pT_spectra_file i j dN_idx ≤ s'.pT_spectra_file i j dN_idx) ∧
    (∀ (fmt : Fmt) (f : InputFile) (n : ℕ) (yh ph : Hist),
      extract_data_oscar fmt f = Except.ok (n, yh, ph) →
      ∀ i j, 0 ≤ yh i j dN_idx ∧ 0 ≤ ph i j dN_idx) ∧
    (∀ (fmt : Fmt) (fs : List InputFile) (n : ℕ) (yh ph : Hist) (n' : ℕ)
      (yh' ph' : Hist), runLoop fmt fs n yh ph = Except.ok (n', yh', ph') →
      ∀ i j, yh i j dN_idx ≤ yh' i j dN_idx ∧ ph i j dN_idx ≤ ph' i j dN_idx) :=
  ⟨stepLine_counts, extract_counts, fun fmt fs => runLoop_counts fmt fs⟩

def evFile : InputFile := InputFile.lines [startLine smashFmt, endLine smashFmt]

/-- Witness for the amended C8 at concrete inputs: one processing step, one
extracted file, one run. -/
theorem c8_amended_counts_monotone_witness :
    (EvCountsNonneg initState ∧
      (EvCountsNonneg { initState with unfinished_event := true } ∧
        ∀ i j, initState.y_spectra_file i j dN_idx ≤
            ({ initState with unfinished_event := true } : FileState).y_spectra_file i j dN_idx ∧
          initState.pT_spectra_file i j dN_idx ≤
            ({ initState with unfinished_event := true } : FileState).pT_spectra_file i j dN_idx)) ∧
    (∀ i j, 0 ≤ (Hist.zero.add Hist.zero) i j dN_idx ∧
      0 ≤ (Hist.zero.add Hist.zero) i j dN_idx) ∧
    (∀ i j, Hist.zero i j dN_idx ≤ (Hist.zero.add (Hist.zero.add Hist.zero)) i j dN_idx ∧
      Hist.zero i j dN_idx ≤ (Hist.zero.add (Hist.zero.add Hist.zero)) i j dN_idx) := by
  have h := c8_amended_counts_monotone
  have hn : EvCountsNonneg initState := fun i j => ⟨le_refl 0, le_refl 0⟩
  refine ⟨⟨hn, h.1 smashFmt initState (startLine smashFmt) _ rfl hn⟩, ?_, ?_⟩
  · exact h.2.1 smashFmt evFile 1 (Hist.zero.add Hist.zero) (Hist.zero.add Hist.zero) rfl
  · exact h.2.2 smashFmt [evFile] 0 Hist.zero Hist.zero 1
      (Hist.zero.add (Hist.zero.add Hist.zero)) (Hist.zero.add (Hist.zero.add Hist.zero)) rfl

theorem selectFormat_unknown (t : String) (h1 : t ≠ "SMASH")
    (h2 : t ≠ "BHAC-QGP") : selectFormat t = Except.error (Abort.exitCode 1) := by
  simp [selectFormat, h1, h2]

theorem mainRun_unknown_type (t : String) (files : List InputFile)
    (h1 : t ≠ "SMASH") (h2 : t ≠ "BHAC-QGP") :
    mainRun t files = Except.error (Abort.exitCode 1) := by
  simp [mainRun, selectFormat_unknown t h1 h2]

/-- Claim C5 is NOT what the code does: when a file fails (here: the first
file is unreadable, so `open` raises), the uncaught exception aborts the
whole run — no warning, no skipping, and the perfectly valid second file is
never counted, even though that file alone yields a successful run.  The
source's `new_events == None` recovery branch is dead code:
`extract_data_oscar` has no return path producing `None`. -/
theorem c5_file_failure_aborts_run :
    mainRun "SMASH" [InputFile.unreadable, evFile] = Except.error Abort.exn ∧
    mainRun "SMASH" [evFile] =
      Except.ok (1, Hist.zero.add (Hist.zero.add Hist.zero),
        Hist.zero.add (Hist.zero.add Hist.zero)) :=
  ⟨rfl, rfl⟩

/-- Counterexample to C6: a configuration error (unknown format type) and a
structural parse error (end marker before any start) exit with the SAME
status 1, so the exit status does not distinguish these two fatal
categories. -/
theorem c6_counterexample :
    mainRun "Oscar1999" [evFile] = Except.error (Abort.exitCode 1) ∧
    mainRun "SMASH" [InputFile.lines [endLine smashFmt]] =
      Except.error (Abort.exitCode 1) :=
  ⟨rfl, rfl⟩

/-- Claim C6 amended: fatal conditions halt the run, and run-level emptiness
(zero committed events across all files) exits with status 2, distinct from
the other fatal categories; but a configuration error (unknown format
variant) and a structural parse error both exit with status 1, so those two
categories are not distinguishable by exit status. -/
theorem c6_amended_exit_statuses :
    (∀ (t : String) (files : List InputFile), t ≠ "SMASH" → t ≠ "BHAC-QGP" →
      mainRun t files = Except.error (Abort.exitCode 1)) ∧
    (∀ fmt : Fmt, fmt.event_end_identifier ≠ fmt.event_start_identifier →
      ∀ (rest : List Line) (fs : List InputFile) (n : ℕ) (yh ph : Hist),
        runLoop fmt (InputFile.lines (endLine fmt :: rest) :: fs) n yh ph =
          Except.error (Abort.exitCode 1)) ∧
    (∀ (fmt : Fmt) (yh ph : Hist),
      runLoop fmt [] 0 yh ph = Except.error (Abort.exitCode 2)) ∧
    (2 : ℕ) ≠ 1 :=
  ⟨fun t files h1 h2 => mainRun_unknown_type t files h1 h2,
   fun fmt hne rest fs n yh ph => runLoop_end_first fmt hne rest fs n yh ph,
   fun fmt yh ph => rfl,
   by decide⟩

/-- Witness for the amended C6 at concrete inputs. -/
theorem c6_amended_exit_statuses_witness :
    mainRun "Oscar1997" [evFile] = Except.error (Abort.exitCode 1) ∧
    runLoop smashFmt [InputFile.lines [endLine smashFmt]] 0 Hist.zero Hist.zero =
      Except.error (Abort.exitCode 1) ∧
    runLoop smashFmt [] 0 Hist.zero Hist.zero = Except.error (Abort.exitCode 2) ∧
    (2 : ℕ) ≠ 1 := by
  have h := c6_amended_exit_statuses
  exact ⟨h.1 "Oscar1997" [evFile] (by decide) (by decide),
    h.2.1 smashFmt (by decide) [] [] 0 Hist.zero Hist.zero,
    h.2.2.1 smashFmt Hist.zero Hist.zero, h.2.2.2⟩

/-- Claim C9: run additivity.  If processing file A alone succeeds with
(eA, ya, pa) and file B alone with (eB, yb, pb), then processing [A, B] in
one run succeeds with exactly (eA + eB, ya + yb, pa + pb).  (In this exact
real-number model the floating-point summation tolerance is equality.) -/
theorem mainRun_eq_runLoop (t : String) (fmt : Fmt) (files : List InputFile)
    (h : selectFormat t = Except.ok fmt) :
    mainRun t files = runLoop fmt files 0 Hist.zero Hist.zero := by
  simp [mainRun, h]

theorem c9_run_additivity (t : String) (A B : InputFile) (eA eB : ℕ)
    (ya pa yb pb : Hist)
    (hA : mainRun t [A] = Except.ok (eA, ya, pa))
    (hB : mainRun t [B] = Except.ok (eB, yb, pb)) :
    mainRun t [A, B] = Except.ok (eA + eB, ya.add yb, pa.add pb) := by
  cases hfmt : selectFormat t with
  | error e =>
    simp only [mainRun, hfmt] at hA
    exact Except.noConfusion hA
  | ok fmt =>
    rw [mainRun_eq_runLoop t fmt [A] hfmt] at hA
    rw [mainRun_eq_runLoop t fmt [B] hfmt] at hB
    rw [mainRun_eq_runLoop t fmt [A, B] hfmt]
    cases hEA : extract_data_oscar fmt A with
    | error e =>
      simp only [runLoop, hEA] at hA
      exact Except.noConfusion hA
    | ok rA =>
      obtain ⟨nA, hyA, hpA⟩ := rA
      simp only [runLoop, hEA] at hA
      by_cases hnA : nA = 0
      · rw [if_pos hnA] at hA
        simp only [if_true] at hA
        exact Except.noConfusion hA
      · rw [if_neg hnA] at hA
        simp only [runLoop, Nat.zero_add] at hA
        rw [if_neg hnA] at hA
        injection hA with hA
        simp only [Prod.mk.injEq] at hA
        obtain ⟨hA1, hA2, hA3⟩ := hA
        cases hEB : extract_data_oscar fmt B with
        | error e =>
          simp only [runLoop, hEB] at hB
          exact Except.noConfusion hB
        | ok rB =>
          obtain ⟨nB, hyB, hpB⟩ := rB
          simp only [runLoop, hEB] at hB
          by_cases hnB : nB = 0
          · rw [if_pos hnB] at hB
            simp only [if_true] at hB
            exact Except.noConfusion hB
          · rw [if_neg hnB] at hB
            simp only [runLoop, Nat.zero_add] at hB
            rw [if_neg hnB] at hB
            injection hB with hB
            simp only [Prod.mk.injEq] at hB
            obtain ⟨hB1, hB2, hB3⟩ := hB
            simp only [runLoop, hEA]
            rw [if_neg hnA]
            simp only [runLoop, hEB, Nat.zero_add]
            rw [if_neg hnB]
            have hsum : ¬(nA + nB = 0) := by omega
            rw [if_neg hsum]
            subst hA1 hA2 hA3 hB1 hB2 hB3
            simp [Hist.zero_add, Hist.add_assoc]

/-- Witness for C9: two copies of a concrete one-event file. -/
theorem c9_run_additivity_witness :
    mainRun "SMASH" [evFile] =
      Except.ok (1, Hist.zero.add (Hist.zero.add Hist.zero),
        Hist.zero.add (Hist.zero.add Hist.zero)) ∧
    mainRun "SMASH" [evFile, evFile] =
      Except.ok (1 + 1,
        (Hist.zero.add (Hist.zero.add Hist.zero)).add
          (Hist.zero.add (Hist.zero.add Hist.zero)),
        (Hist.zero.add (Hist.zero.add Hist.zero)).add
          (Hist.zero.add (Hist.zero.add Hist.zero))) :=
  ⟨rfl, c9_run_additivity "SMASH" evFile evFile 1 1
    (Hist.zero.add (Hist.zero.add Hist.zero)) (Hist.zero.add (Hist.zero.add Hist.zero))
    (Hist.zero.add (Hist.zero.add Hist.zero)) (Hist.zero.add (Hist.zero.add Hist.zero))
    rfl rfl⟩

-- Flow-moment bounds.

theorem abs_v1Of_le (p : Particle) (h : p.px ^ 2 + p.py ^ 2 ≠ 0) :
    |v1Of p| ≤ 1 := by
  have hpos : 0 < p.px ^ 2 + p.py ^ 2 := lt_of_le_of_ne (by positivity) (Ne.symm h)
  have hs : 0 < Real.sqrt (p.px ^ 2 + p.py ^ 2) := Real.sqrt_pos.mpr hpos
  rw [v1Of, pTOf, abs_div, abs_of_pos hs, div_le_one hs]
  calc |p.px| = Real.sqrt (p.px ^ 2) := (Real.sqrt_sq_eq_abs p.px).symm
    _ ≤ Real.sqrt (p.px ^ 2 + p.py ^ 2) :=
        Real.sqrt_le_sqrt (by nlinarith [sq_nonneg p.py])

theorem abs_v2Of_le (p : Particle) (h : p.px ^ 2 + p.py ^ 2 ≠ 0) :
    |v2Of p| ≤ 1 := by
  have hpos : 0 < p.px ^ 2 + p.py ^ 2 := lt_of_le_of_ne (by positivity) (Ne.symm h)
  rw [v2Of, abs_div, abs_of_pos hpos, div_le_one hpos]
  exact abs_le.mpr ⟨by nlinarith [sq_nonneg p.px, sq_nonneg p.py],
    by nlinarith [sq_nonneg p.px, sq_nonneg p.py]⟩

/-- Every bin of a histogram has its v1-sum and v2-sum bounded in absolute
value by its count. -/
def HistBound (h : Hist) : Prop :=
  ∀ i j, |h i j v1_idx| ≤ h i j dN_idx ∧ |h i j v2_idx| ≤ h i j dN_idx

theorem histBound_zero : HistBound Hist.zero := by
  intro i j
  simp [Hist.zero]

theorem histBound_add {a b : Hist} (ha : HistBound a) (hb : HistBound b) :
    HistBound (a.add b) := by
  intro i j
  constructor
  · exact le_trans (abs_add _ _) (add_le_add (ha i j).1 (hb i j).1)
  · exact le_trans (abs_add _ _) (add_le_add (ha i j).2 (hb i j).2)

theorem bump_v1_entry (h : Hist) (a b i j : ℕ) (v1 v2 : ℝ) :
    bump h a b v1 v2 i j v1_idx =
      if i = a ∧ j = b then h i j v1_idx + v1 else h i j v1_idx := by
  simp [bump, updAt, dN_idx, v1_idx, v2_idx]

theorem bump_v2_entry (h : Hist) (a b i j : ℕ) (v1 v2 : ℝ) :
    bump h a b v1 v2 i j v2_idx =
      if i = a ∧ j = b then h i j v2_idx + v2 else h i j v2_idx := by
  simp [bump, updAt, dN_idx, v1_idx, v2_idx]

theorem bump_bound (h : Hist) (a b : ℕ) (v1 v2 : ℝ) (hb : HistBound h)
    (h1 : |v1| ≤ 1) (h2 : |v2| ≤ 1) : HistBound (bump h a b v1 v2) := by
  intro i j
  rw [bump_count_entry, bump_v1_entry, bump_v2_entry]
  by_cases hc : i = a ∧ j = b
  · rw [if_pos hc, if_pos hc, if_pos hc]
    constructor
    · exact le_trans (abs_add _ _) (add_le_add (hb i j).1 h1)
    · exact le_trans (abs_add _ _) (add_le_add (hb i j).2 h2)
  · rw [if_neg hc, if_neg hc, if_neg hc]
    exact hb i j

theorem binParticle_bound (ys ps : Hist) (p : Particle)
    (hy : HistBound ys) (hp : HistBound ps) :
    HistBound (binParticle ys ps p).1 ∧ HistBound (binParticle ys ps p).2 := by
  cases hreg : hadronIndex p.pdg with
  | none =>
    rw [binParticle_skip p (Or.inl hreg)]
    exact ⟨hy, hp⟩
  | some k =>
    by_cases h1 : (p.p0 - p.pz) * (p.p0 + p.pz) ≤ 0
    · rw [binParticle_skip p (Or.inr (Or.inl h1))]
      exact ⟨hy, hp⟩
    · by_cases h2 : p.px ^ 2 + p.py ^ 2 = 0
      · rw [binParticle_skip p (Or.inr (Or.inr h2))]
        exact ⟨hy, hp⟩
      · rw [binParticle_valid_char ys ps p k hreg (not_le.mp h1) h2]
        have hv1 := abs_v1Of_le p h2
        have hv2 := abs_v2Of_le p h2
        constructor
        · show HistBound (if _ then _ else ys)
          split
          · exact bump_bound ys k _ (v1Of p) (v2Of p) hy hv1 hv2
          · exact hy
        · show HistBound (if _ then _ else ps)
          split
          · exact bump_bound ps k _ (v1Of p) (v2Of p) hp hv1 hv2
          · exact hp

/-- All four histograms of the loop state satisfy the v1/v2-vs-count bound. -/
def StBound (s : FileState) : Prop :=
  HistBound s.y_spectra_event ∧ HistBound s.pT_spectra_event ∧
  HistBound s.y_spectra_file ∧ HistBound s.pT_spectra_file

theorem stepLine_bound (fmt : Fmt) (s : FileState) (l : Line) (s' : FileState)
    (h : stepLine fmt s l = Except.ok s') (hs : StBound s) : StBound s' := by
  cases l with
  | particle p =>
    rw [stepLine_particle] at h
    injection h with h
    subst h
    have hb := binParticle_bound s.y_spectra_event s.pT_spectra_event p hs.1 hs.2.1
    exact ⟨hb.1, hb.2, hs.2.2.1, hs.2.2.2⟩
  | comment f1 f3 =>
    simp only [stepLine] at h
    by_cases hc1 : f1 = fmt.event_name_identifier
    · rw [if_pos hc1] at h
      by_cases hc2 : f3 = fmt.event_start_identifier
      · rw [if_pos hc2] at h
        injection h with h
        subst h
        exact hs
      · rw [if_neg hc2] at h
        by_cases hc3 : f3 = fmt.event_end_identifier
        · rw [if_pos hc3] at h
          cases hu : s.unfinished_event with
          | false =>
            rw [hu] at h
            exact Except.noConfusion h
          | true =>
            rw [hu] at h
            simp only [if_pos] at h
            injection h with h
            subst h
            exact ⟨histBound_zero, histBound_zero,
              histBound_add hs.2.2.1 hs.1, histBound_add hs.2.2.2 hs.2.1⟩
        · rw [if_neg hc3] at h
          exact Except.noConfusion h
    · rw [if_neg hc1] at h
      injection h with h
      subst h
      exact hs

theorem extractLines_bound (fmt : Fmt) (ls : List Line) :
    ∀ s s' : FileState, extractLines fmt s ls = Except.ok s' → StBound s →
      StBound s' := by
  induction ls with
  | nil =>
    intro s s' h hs
    simp only [extractLines] at h
    injection h with h
    subst h
    exact hs
  | cons l ls ih =>
    intro s s' h hs
    cases hstep : stepLine fmt s l with
    | error e =>
      simp only [extractLines, hstep] at h
      exact Except.noConfusion h
    | ok s1 =>
      simp only [extractLines, hstep] at h
      exact ih s1 s' h (stepLine_bound fmt s l s1 hstep hs)

theorem extract_bound (fmt : Fmt) (f : InputFile) (n : ℕ) (yh ph : Hist)
    (h : extract_data_oscar fmt f = Except.ok (n, yh, ph)) :
    HistBound yh ∧ HistBound ph := by
  cases f with
  | unreadable => exact Except.noConfusion h
  | lines ls =>
    simp only [extract_data_oscar] at h
    cases hex : extractLines fmt initState ls with
    | error e =>
      rw [hex] at h
      exact Except.noConfusion h
    | ok s =>
      rw [hex] at h
      injection h with h
      simp only [Prod.mk.injEq] at h
      obtain ⟨h1, h2, h3⟩ := h
      subst h2
      subst h3
      have hb := extractLines_bound fmt ls initState s hex
        ⟨histBound_zero, histBound_zero, histBound_zero, histBound_zero⟩
      exact ⟨hb.2.2.1, hb.2.2.2⟩

theorem runLoop_bound (fmt : Fmt) (fs : List InputFile) :
    ∀ (n : ℕ) (yh ph : Hist) (n' : ℕ) (yh' ph' : Hist),
      runLoop fmt fs n yh ph = Except.ok (n', yh', ph') →
      HistBound yh → HistBound ph → HistBound yh' ∧ HistBound ph' := by
  induction fs with
  | nil =>
    intro n yh ph n' yh' ph' h hy hp
    simp only [runLoop] at h
    split at h
    · exact Except.noConfusion h
    · injection h with h
      simp only [Prod.mk.injEq] at h
      obtain ⟨h1, h2, h3⟩ := h
      subst h2
      subst h3
      exact ⟨hy, hp⟩
  | cons f fs ih =>
    intro n yh ph n' yh' ph' h hy hp
    cases hex : extract_data_oscar fmt f with
    | error e =>
      simp only [runLoop, hex] at h
      exact Except.noConfusion h
    | ok r =>
      obtain ⟨ne, nyh, nph⟩ := r
      simp only [runLoop, hex] at h
      by_cases hne : ne = 0
      · rw [if_pos hne] at h
        exact ih n yh ph n' yh' ph' h hy hp
      · rw [if_neg hne] at h
        have hc := extract_bound fmt f ne nyh nph hex
        exact ih _ _ _ _ _ _ h (histBound_add hy hc.1) (histBound_add hp hc.2)

/-- Claim C10: for every particle with nonzero transverse momentum the flow
contributions satisfy `|v1| ≤ 1` and `|v2| ≤ 1`, and therefore every bin of
every histogram — event-scoped and file-scoped through each processing step
and each extraction, and run-scoped through the run loop — satisfies
`|v1-sum| ≤ count` and `|v2-sum| ≤ count`. -/
theorem c10_flow_sums_bounded_by_count :
    (∀ p : Particle, p.px ^ 2 + p.py ^ 2 ≠ 0 → |v1Of p| ≤ 1 ∧ |v2Of p| ≤ 1) ∧
    (∀ (fmt : Fmt) (s : FileState) (l : Line) (s' : FileState),
      stepLine fmt s l = Except.ok s' → StBound s → StBound s') ∧
    (∀ (fmt : Fmt) (f : InputFile) (n : ℕ) (yh ph : Hist),
      extract_data_oscar fmt f = Except.ok (n, yh, ph) →
      HistBound yh ∧ HistBound ph) ∧
    (∀ (fmt : Fmt) (fs : List InputFile) (n : ℕ) (yh ph : Hist) (n' : ℕ)
      (yh' ph' : Hist), runLoop fmt fs n yh ph = Except.ok (n', yh', ph') →
      HistBound yh → HistBound ph → HistBound yh' ∧ HistBound ph') :=
  ⟨fun p h => ⟨abs_v1Of_le p h, abs_v2Of_le p h⟩, stepLine_bound, extract_bound,
   fun fmt fs => runLoop_bound fmt fs⟩

/-- Witness for C10 at concrete inputs. -/
theorem c10_flow_sums_bounded_by_count_witness :
    (|v1Of (pxParticle 1)| ≤ 1 ∧ |v2Of (pxParticle 1)| ≤ 1) ∧
    StBound { initState with unfinished_event := true } ∧
    (HistBound (Hist.zero.add Hist.zero) ∧ HistBound (Hist.zero.add Hist.zero)) ∧
    (HistBound (Hist.zero.add (Hist.zero.add Hist.zero)) ∧
      HistBound (Hist.zero.add (Hist.zero.add Hist.zero))) := by
  have h := c10_flow_sums_bounded_by_count
  have hsi : StBound initState :=
    ⟨histBound_zero, histBound_zero, histBound_zero, histBound_zero⟩
  exact ⟨h.1 (pxParticle 1) (by norm_num [pxParticle]),
    h.2.1 smashFmt initState (startLine smashFmt)
      { initState with unfinished_event := true } rfl hsi,
    h.2.2.1 smashFmt evFile 1 (Hist.zero.add Hist.zero) (Hist.zero.add Hist.zero) rfl,
    h.2.2.2 smashFmt [evFile] 0 Hist.zero Hist.zero 1
      (Hist.zero.add (Hist.zero.add Hist.zero))
      (Hist.zero.add (Hist.zero.add Hist.zero)) rfl histBound_zero histBound_zero⟩
